import Mathlib

/-!
# notifly: producer, consumer and notification store

A shallow embedding of `cmd/producer/producer.go` and `cmd/consumer/consumer.go`.

* Go `string` and `[]byte` values are Lean `String`s, Go `int` is `Int` (no arithmetic is
  performed on ids, so machine width only matters inside `strconv.Atoi`).
* A Go `(value, error)` result is a pair `value × Option GoError`, `none` standing for `nil`.
* The Go map inside `NotificationStore` is a function `String → Option (List Notification)`.
* Calls that leave the process (`producer.SendMessage`, `session.MarkMessage`, `ctx.JSON`,
  `log.Printf`) are recorded, in program order, in the list a function returns.
  Console output of `fmt.Println` is not recorded.
* `encoding/json` is a parameter (`JsonCodec`); `strconv.Itoa` and `strconv.Atoi` are modelled.
-/

namespace Notifly

/-! ## Data model (`notifly/pkg/models`, as used by both programs) -/

/-- The record `models.User{ID, Name}`. -/
structure User where
  ID : Int
  Name : String
deriving DecidableEq, Repr

/-- The record `models.Notification{From, To, Message}`, the envelope put on the log. -/
structure Notification where
  From : User
  To : User
  Message : String
deriving DecidableEq, Repr

/-- Go `error` values that occur in the two programs. -/
inductive GoError where
  /-- The sentinel `ErrNoMessagesFound = errors.New("no messages found")` of the consumer. -/
  | ErrNoMessagesFound
  /-- The sentinel `ErrUserNotFoundInProducer = errors.New("user not found in producer")`. -/
  | ErrUserNotFoundInProducer
  /-- The value `fmt.Errorf("error marshalling notification: %w", cause)`. -/
  | marshalling (cause : GoError)
  /-- An error value created by a library (`encoding/json`, `strconv`, `sarama`). -/
  | library (text : String)
deriving DecidableEq, Repr

/-- The method `err.Error()`. -/
def GoError.Error : GoError → String
  | .ErrNoMessagesFound => "no messages found"
  | .ErrUserNotFoundInProducer => "user not found in producer"
  | .marshalling cause => "error marshalling notification: " ++ cause.Error
  | .library text => text

/-- The chain walk of `errors.Is` on a non-nil error: equal to the target, or wrapping one
that is. -/
def GoError.Is : GoError → GoError → Bool
  | .marshalling cause, target =>
    if GoError.marshalling cause = target then true else cause.Is target
  | e, target => decide (e = target)

/-- The function `errors.Is(err, target)`; a nil `err` matches nothing. -/
def errorsIs : Option GoError → GoError → Bool
  | none, _ => false
  | some e, target => e.Is target

/-! ## `strconv` -/

/-- The function `strconv.Itoa`: decimal digits, with a leading minus sign for a negative
number. -/
def Itoa (i : Int) : String :=
  if i < 0 then String.mk ('-' :: Nat.toDigits 10 i.natAbs) else String.mk (Nat.toDigits 10 i.toNat)

/-- Value of a run of ASCII decimal digits, `none` when a character is not a digit. -/
def parseDigits : List Char → Nat → Option Nat
  | [], acc => some acc
  | c :: cs, acc =>
    if 48 ≤ c.toNat ∧ c.toNat ≤ 57 then parseDigits cs (10 * acc + (c.toNat - 48)) else none

/-- The function `strconv.Atoi` on a 64-bit platform: an optional sign, then one or more
decimal digits, the value within the range of `int`. -/
def Atoi (s : String) : Int × Option GoError :=
  let body := match s.data with
    | '-' :: cs => cs
    | '+' :: cs => cs
    | cs => cs
  let negative := s.data.head? = some '-'
  match body with
  | [] => (0, some (.library "strconv.Atoi: invalid syntax"))
  | _ =>
    match parseDigits body 0 with
    | none => (0, some (.library "strconv.Atoi: invalid syntax"))
    | some n =>
      if negative then
        if n ≤ 2 ^ 63 then (-(n : Int), none)
        else (-(2 ^ 63 : Int), some (.library "strconv.Atoi: value out of range"))
      else
        if n < 2 ^ 63 then ((n : Int), none)
        else ((2 ^ 63 - 1 : Int), some (.library "strconv.Atoi: value out of range"))

/-! ## Consumer: the notification store (`consumer.go`, lines 36-64) -/

/-- The map type `UserNotifications = map[string][]models.Notification`. -/
abbrev UserNotifications := String → Option (List Notification)

/-- The struct `NotificationStore`; the lock `mu` serialises the calls and has no state of
its own in a sequential run. -/
structure NotificationStore where
  data : UserNotifications

/-- The store `main` creates: `data: make(UserNotifications)`. -/
def NotificationStore.empty : NotificationStore := ⟨fun _ => none⟩

/-- Map assignment `m[k] = v`. -/
def UserNotifications.set (m : UserNotifications) (k : String) (v : List Notification) :
    UserNotifications :=
  fun k' => if k' = k then some v else m k'

/-- Map read `m[k]` in value position: the zero value (nil slice) for a missing key. -/
def UserNotifications.at (m : UserNotifications) (k : String) : List Notification :=
  (m k).getD []

/-- The method `NotificationStore.Add`. -/
def NotificationStore.Add (ns : NotificationStore) (userId : String)
    (notification : Notification) : NotificationStore :=
  let data1 : UserNotifications :=
    match ns.data userId with
    | none => UserNotifications.set ns.data userId []
    | some _ => ns.data
  ⟨UserNotifications.set data1 userId (UserNotifications.at data1 userId ++ [notification])⟩

/-- The method `NotificationStore.Get`. -/
def NotificationStore.Get (ns : NotificationStore) (userId : String) :
    List Notification × Option GoError :=
  match ns.data userId with
  | none => ([], some .ErrNoMessagesFound)
  | some notifications => (notifications, none)

/-- A finite sequence of `Add` calls, applied left to right. -/
def NotificationStore.addAll (ns : NotificationStore) (calls : List (String × Notification)) :
    NotificationStore :=
  calls.foldl (fun s call => s.Add call.1 call.2) ns

/-! ## External collaborators -/

deriving instance DecidableEq for Except

/-- The two `encoding/json` entry points the programs call, at type `models.Notification`:
`json.Marshal(notification)` and `json.Unmarshal(bytes, &notification)` into a fresh
variable. -/
structure JsonCodec where
  Marshal : Notification → Except GoError String
  Unmarshal : String → Except GoError Notification

/-- The part of `*gin.Context` a handler reads: form fields and path parameters, the empty
string for one that is missing. -/
structure Context where
  PostForm : String → String
  Param : String → String

/-- A value stored in a `gin.H` literal of the two programs. -/
inductive HValue where
  | text (s : String)
  | notifications (ns : List Notification)
deriving DecidableEq, Repr

/-- One call `ctx.JSON(status, body)`, the body's entries in the order the literal lists
them. -/
structure Response where
  status : Nat
  body : List (String × HValue)
deriving DecidableEq, Repr

/-- The struct `sarama.ProducerMessage` with the fields the producer fills. -/
structure ProducerMessage where
  Topic : String
  Key : String
  Value : String
deriving DecidableEq, Repr

/-- A `sarama.SyncProducer`, seen through the error its `SendMessage` returns. -/
abbrev SyncProducer := ProducerMessage → Option GoError

/-- The struct `sarama.ConsumerMessage` with the fields the consumer reads, and the position
that identifies it. -/
structure ConsumerMessage where
  Key : String
  Value : String
  Topic : String
  Partition : Int
  Offset : Int
deriving DecidableEq, Repr

/-! ## Producer (`producer.go`) -/

def kafkaTopic : String := "notifications"

/-- The function `findUserById`: the first user of the list with the id. -/
def findUserById (id : Int) : List User → User × Option GoError
  | [] => (⟨0, ""⟩, some .ErrUserNotFoundInProducer)
  | user :: users => if user.ID = id then (user, none) else findUserById id users

/-- The function `getIdFromRequest`. -/
def getIdFromRequest (fromValue : String) (ctx : Context) : Int × Option GoError :=
  match Atoi (ctx.PostForm fromValue) with
  | (_, some err) => (0, some err)
  | (id, none) => (id, none)

/-- The function `sendKafkaMessage`: the error it returns and the messages it passed to
`producter.SendMessage`. -/
def sendKafkaMessage (json : JsonCodec) (producter : SyncProducer) (users : List User)
    (ctx : Context) (fromId toId : Int) : Option GoError × List ProducerMessage :=
  let message := ctx.PostForm "message"
  match findUserById fromId users with
  | (_, some err) => (some err, [])
  | (fromUser, none) =>
    match findUserById toId users with
    | (_, some err) => (some err, [])
    | (toUser, none) =>
      let notification : Notification := ⟨fromUser, toUser, message⟩
      match json.Marshal notification with
      | .error err => (some (.marshalling err), [])
      | .ok notificationJson =>
        let msg : ProducerMessage := ⟨kafkaTopic, Itoa toUser.ID, notificationJson⟩
        (producter msg, [msg])

/-- The handler `SendMessageHandler(producer, users)` run on one request: the `ctx.JSON`
calls it makes, in order, and the messages passed to the producer. -/
def SendMessageHandler (json : JsonCodec) (producer : SyncProducer) (users : List User)
    (ctx : Context) : List Response × List ProducerMessage :=
  match getIdFromRequest "fromId" ctx with
  | (_, some err) => ([⟨400, [("message", .text err.Error)]⟩], [])
  | (fromId, none) =>
    match getIdFromRequest "toId" ctx with
    | (_, some err) => ([⟨400, [("Message", .text err.Error)]⟩], [])
    | (toId, none) =>
      let (err, sent) := sendKafkaMessage json producer users ctx fromId toId
      let notFound : List Response :=
        if errorsIs err .ErrUserNotFoundInProducer then
          [⟨404, [("message", .text "User not found")]⟩]
        else []
      match err with
      | some e => (notFound ++ [⟨500, [("error", .text e.Error)]⟩], sent)
      | none =>
        (notFound ++ [⟨200, [("message", .text "Notification sent successfully!")]⟩], sent)

/-! ## Consumer (`consumer.go`) -/

/-- The function `getUserIdFromRequest`. -/
def getUserIdFromRequest (ctx : Context) : String × Option GoError :=
  let userId := ctx.Param "userId"
  if userId = "" then ("", some .ErrNoMessagesFound) else (userId, none)

/-- What `ConsumeClaim` does to the world besides returning: log lines, store writes and
offset marks. -/
inductive Effect where
  /-- The call `log.Printf("failed to unmarshal notification: %v", err)`. -/
  | logged (err : GoError)
  /-- The call `c.store.Add(userId, notification)`. -/
  | added (userId : String) (notification : Notification)
  /-- The call `session.MarkMessage(message, metadata)`. -/
  | marked (message : ConsumerMessage) (metadata : String)
deriving DecidableEq, Repr

/-- State after a run of `ConsumeClaim`: the store `c.store` points to, the effects so far
and the returned error. -/
structure ClaimResult where
  store : NotificationStore
  effects : List Effect
  err : Option GoError

/-- The body of the `for message := range claim.Messages()` loop, over the messages the
channel delivers before it is closed. -/
def ConsumeClaim.loop (json : JsonCodec) :
    List ConsumerMessage → NotificationStore → List Effect → NotificationStore × List Effect
  | [], store, effects => (store, effects)
  | message :: rest, store, effects =>
    let userId := message.Key
    match json.Unmarshal message.Value with
    | .error err => ConsumeClaim.loop json rest store (effects ++ [.logged err])
    | .ok notification =>
      ConsumeClaim.loop json rest (store.Add userId notification)
        (effects ++ [.added userId notification, .marked message ""])

/-- The method `Consumer.ConsumeClaim` of a consumer whose `store` field points to `store`,
on a claim that delivers `claim`. -/
def ConsumeClaim (json : JsonCodec) (store : NotificationStore) (claim : List ConsumerMessage) :
    ClaimResult :=
  let (store1, effects) := ConsumeClaim.loop json claim store []
  ⟨store1, effects, none⟩

/-- The store write a message leads to: its key with the decoded envelope, none when the
payload does not decode. -/
def decoded (json : JsonCodec) (m : ConsumerMessage) : Option (String × Notification) :=
  match json.Unmarshal m.Value with
  | .ok notification => some (m.Key, notification)
  | .error _ => none

/-- The effects one message leads to: a log line when the payload does not decode, else the
store write followed by the offset mark. -/
def messageEffects (json : JsonCodec) (m : ConsumerMessage) : List Effect :=
  match json.Unmarshal m.Value with
  | .ok notification => [.added m.Key notification, .marked m ""]
  | .error err => [.logged err]

/-- Whether the payload of a message decodes. -/
def decodes (json : JsonCodec) (m : ConsumerMessage) : Bool :=
  match json.Unmarshal m.Value with
  | .ok _ => true
  | .error _ => false

/-- The message an effect marks, if it is a mark. -/
def Effect.markOf : Effect → Option ConsumerMessage
  | .marked m _ => some m
  | _ => none

/-- The function `handleNotifications`: the `ctx.JSON` calls it makes, in order. -/
def handleNotifications (ctx : Context) (store : NotificationStore) : List Response :=
  match getUserIdFromRequest ctx with
  | (_, some err) => [⟨404, [("message", .text err.Error)]⟩]
  | (userId, none) =>
    let (notes, _) := store.Get userId
    if notes.length = 0 then
      [⟨200, [("message", .text "No notifications found"), ("notifications", .notifications [])]⟩]
    else
      [⟨200, [("notifications", .notifications notes)]⟩]

/-! ## The log between the two programs -/

/-- One partition of the log: what was published arrives with the same key and value, in
publish order, numbered by offset. -/
def logDeliverFrom (offset : Int) : List ProducerMessage → List ConsumerMessage
  | [] => []
  | p :: ps => ⟨p.Key, p.Value, p.Topic, 0, offset⟩ :: logDeliverFrom (offset + 1) ps

def logDeliver (published : List ProducerMessage) : List ConsumerMessage :=
  logDeliverFrom 0 published

/-- A send request as `sendKafkaMessage` receives it: the context and the two parsed ids. -/
structure Send where
  ctx : Context
  fromId : Int
  toId : Int

/-- The messages a sequence of `sendKafkaMessage` calls passes to the producer, in call
order. -/
def publishAll (json : JsonCodec) (producter : SyncProducer) (users : List User)
    (sends : List Send) : List ProducerMessage :=
  (sends.map (fun s => (sendKafkaMessage json producter users s.ctx s.fromId s.toId).2)).flatten

/-- The envelope `{from, to, message}` of a send: the directory records of the two ids and
the posted message. -/
def Send.envelope (users : List User) (s : Send) : Notification :=
  ⟨(findUserById s.fromId users).1, (findUserById s.toId users).1, s.ctx.PostForm "message"⟩

/-- The directory `main` of the producer builds. -/
def mainUsers : List User := [⟨1, "Emma"⟩, ⟨2, "Bruno"⟩, ⟨3, "Rick"⟩, ⟨4, "Lena"⟩]

/-- A request context with the given form fields and path parameters. -/
def Context.ofFields (form params : List (String × String)) : Context :=
  ⟨fun k => (form.lookup k).getD "", fun k => (params.lookup k).getD ""⟩

def emma : User := ⟨1, "Emma"⟩
def bruno : User := ⟨2, "Bruno"⟩
def rick : User := ⟨3, "Rick"⟩

/-- The request `POST /send` with the three form fields. -/
def sendRequest (fromId toId message : String) : Context :=
  Context.ofFields [("fromId", fromId), ("toId", toId), ("message", message)] []

/-- The request `GET /notifications/:userId`. -/
def queryRequest (userId : String) : Context :=
  Context.ofFields [] [("userId", userId)]

/-- A producer whose `SendMessage` always succeeds. -/
def acceptingProducer : SyncProducer := fun _ => none

/-! ## A reference codec

A small encoder and decoder for the wire format `json.Marshal` gives an envelope whose
strings need no escaping. It instantiates `JsonCodec` in the concrete runs below; the
general theorems hold for every codec. -/

/-- Characters the reference codec writes between quotes unchanged. -/
def plainChar (c : Char) : Bool :=
  decide (32 ≤ c.toNat) && c != '"' && c != '\\' && c != '<' && c != '>' && c != '&'
    && decide (c.toNat < 127)

def userJson (u : User) : List Char :=
  "\x7b\"id\":".data ++ (Itoa u.ID).data ++ ",\"name\":\"".data ++ u.Name.data ++ "\"\x7d".data

def referenceMarshal (n : Notification) : Except GoError String :=
  if (n.From.Name.data ++ n.To.Name.data ++ n.Message.data).all plainChar then
    .ok (String.mk ("\x7b\"from\":".data ++ userJson n.From ++ ",\"to\":".data ++ userJson n.To
      ++ ",\"message\":\"".data ++ n.Message.data ++ "\"\x7d".data))
  else .error (.library "reference codec: string needs escaping")

/-- Strip an expected literal from the front of the input. -/
def expectLit : List Char → List Char → Option (List Char)
  | [], input => some input
  | _ :: _, [] => none
  | c :: cs, d :: input => if c = d then expectLit cs input else none

/-- Read plain characters up to the closing quote. -/
def readPlain : List Char → List Char → Option (String × List Char)
  | [], _ => none
  | c :: input, acc =>
    if c = '"' then some (String.mk acc.reverse, input)
    else if plainChar c then readPlain input (c :: acc) else none

/-- Read a decimal integer. -/
def readInt (input : List Char) : Option (Int × List Char) :=
  let body := match input with
    | '-' :: cs => cs
    | cs => cs
  let digits := body.takeWhile Char.isDigit
  match digits, parseDigits digits 0 with
  | _ :: _, some n =>
    some (if input.head? = some '-' then -(n : Int) else (n : Int), body.dropWhile Char.isDigit)
  | _, _ => none

def readUser (input : List Char) : Option (User × List Char) := do
  let r ← expectLit "\x7b\"id\":".data input
  let (id, r) ← readInt r
  let r ← expectLit ",\"name\":\"".data r
  let (name, r) ← readPlain r []
  let r ← expectLit "\x7d".data r
  pure (⟨id, name⟩, r)

def referenceUnmarshal (payload : String) : Except GoError Notification :=
  let parsed : Option Notification := do
    let r ← expectLit "\x7b\"from\":".data payload.data
    let (sender, r) ← readUser r
    let r ← expectLit ",\"to\":".data r
    let (recipient, r) ← readUser r
    let r ← expectLit ",\"message\":\"".data r
    let (message, r) ← readPlain r []
    let r ← expectLit "\x7d".data r
    if r = [] then pure ⟨sender, recipient, message⟩ else none
  match parsed with
  | some n => .ok n
  | none => .error (.library "reference codec: cannot decode")

def referenceJson : JsonCodec := ⟨referenceMarshal, referenceUnmarshal⟩

/-! ## Concrete inputs -/

def demoCalls : List (String × Notification) :=
  [("2", ⟨emma, bruno, "hi"⟩), ("3", ⟨emma, rick, "hello"⟩), ("2", ⟨rick, bruno, "yo"⟩)]

/-- A send request whose sender id 9 is not in the directory. -/
def unknownUserRequest : Context := sendRequest "9" "2" "hi"

def hiPayload : String :=
  "\x7b\"from\":\x7b\"id\":1,\"name\":\"Emma\"\x7d,\"to\":\x7b\"id\":2,\"name\":\"Bruno\"\x7d,\"message\":\"hi\"\x7d"

def yoPayload : String :=
  "\x7b\"from\":\x7b\"id\":3,\"name\":\"Rick\"\x7d,\"to\":\x7b\"id\":2,\"name\":\"Bruno\"\x7d,\"message\":\"yo\"\x7d"

def hiMessage : ConsumerMessage := ⟨"2", hiPayload, "notifications", 0, 0⟩
def badMessage : ConsumerMessage := ⟨"2", "not json", "notifications", 0, 1⟩
def yoMessage : ConsumerMessage := ⟨"2", yoPayload, "notifications", 0, 2⟩

/-- A claim with an undecodable payload between two envelopes for Bruno. -/
def demoClaim : List ConsumerMessage := [hiMessage, badMessage, yoMessage]

/-- A message whose key is not the id of the recipient in its payload. -/
def strayMessage : ConsumerMessage := ⟨"9", hiPayload, "notifications", 0, 0⟩

def demoSends : List Send := [⟨sendRequest "1" "2" "hi", 1, 2⟩, ⟨sendRequest "3" "2" "yo", 3, 2⟩]

/-! ## The models on concrete inputs -/

theorem Itoa_examples : Itoa 2 = "2" ∧ Itoa (-120) = "-120" ∧ Itoa 0 = "0" := by decide

theorem Atoi_examples :
    Atoi "-120" = (-120, none) ∧ Atoi "007" = (7, none) ∧
    Atoi "12a" = (0, some (.library "strconv.Atoi: invalid syntax")) ∧
    Atoi "" = (0, some (.library "strconv.Atoi: invalid syntax")) ∧
    Atoi "9223372036854775808"
      = (9223372036854775807, some (.library "strconv.Atoi: value out of range")) := by
  decide

theorem referenceJson_examples :
    referenceMarshal ⟨emma, bruno, "hi"⟩ = .ok hiPayload ∧
    referenceUnmarshal hiPayload = .ok ⟨emma, bruno, "hi"⟩ ∧
    referenceUnmarshal yoPayload = .ok ⟨rick, bruno, "yo"⟩ ∧
    referenceUnmarshal "not json" = .error (.library "reference codec: cannot decode") := by
  decide

/-! ## Decimal rendering is injective -/

theorem digitChar_toNat (d : Nat) (h : d < 10) : (Nat.digitChar d).toNat = 48 + d := by
  interval_cases d <;> rfl

theorem parseDigits_append (xs ys : List Char) (acc : Nat) :
    parseDigits (xs ++ ys) acc = (parseDigits xs acc).bind (parseDigits ys) := by
  induction xs generalizing acc with
  | nil => rfl
  | cons c cs ih =>
    simp only [List.cons_append, parseDigits]
    split
    · exact ih _
    · rfl

theorem parseDigits_digitChar (d acc : Nat) (h : d < 10) :
    parseDigits [Nat.digitChar d] acc = some (10 * acc + d) := by
  have hd := digitChar_toNat d h
  simp only [parseDigits, hd]
  rw [if_pos (by omega)]
  congr 2
  omega

theorem toDigitsCore_spec (fuel : Nat) : ∀ (n : Nat) (ds : List Char), n < fuel →
    ∃ pre, Nat.toDigitsCore 10 fuel n ds = pre ++ ds ∧
      ∀ acc, parseDigits pre acc = some (acc * 10 ^ pre.length + n) := by
  induction fuel with
  | zero => intro n ds h; omega
  | succ fuel ih =>
    intro n ds h
    have hd : n % 10 < 10 := Nat.mod_lt _ (by decide)
    by_cases h0 : n / 10 = 0
    · refine ⟨[Nat.digitChar (n % 10)], ?_, ?_⟩
      · simp [Nat.toDigitsCore, h0]
      · intro acc
        rw [parseDigits_digitChar _ _ hd]
        congr 1
        simp only [List.length_singleton, pow_one]
        omega
    · have hlt : n / 10 < fuel := by omega
      obtain ⟨pre, hpre, hval⟩ := ih (n / 10) (Nat.digitChar (n % 10) :: ds) hlt
      refine ⟨pre ++ [Nat.digitChar (n % 10)], ?_, ?_⟩
      · simp [Nat.toDigitsCore, h0, hpre]
      · intro acc
        rw [parseDigits_append, hval acc]
        simp only [Option.some_bind]
        rw [parseDigits_digitChar _ _ hd]
        congr 1
        simp only [List.length_append, List.length_singleton, pow_succ]
        have := Nat.div_add_mod n 10
        nlinarith [this]

theorem parseDigits_toDigits (n : Nat) : parseDigits (Nat.toDigits 10 n) 0 = some n := by
  obtain ⟨pre, hpre, hval⟩ := toDigitsCore_spec (n + 1) n [] (Nat.lt_succ_self n)
  have h := hval 0
  simp only [List.append_nil] at hpre
  rw [Nat.toDigits, hpre, h]
  simp

theorem Itoa_injective : Function.Injective Itoa := by
  intro i j h
  unfold Itoa at h
  have hi := parseDigits_toDigits i.natAbs
  have hi2 := parseDigits_toDigits i.toNat
  have hj := parseDigits_toDigits j.natAbs
  have hj2 := parseDigits_toDigits j.toNat
  by_cases hin : i < 0 <;> by_cases hjn : j < 0
  · rw [if_pos hin, if_pos hjn] at h
    have h2 : Nat.toDigits 10 i.natAbs = Nat.toDigits 10 j.natAbs := by
      injection h with h; injection h
    rw [h2, hj] at hi
    injection hi with hi
    omega
  · rw [if_pos hin, if_neg hjn] at h
    have h2 : '-' :: Nat.toDigits 10 i.natAbs = Nat.toDigits 10 j.toNat := by injection h
    rw [← h2] at hj2
    simp [parseDigits] at hj2
  · rw [if_neg hin, if_pos hjn] at h
    have h2 : Nat.toDigits 10 i.toNat = '-' :: Nat.toDigits 10 j.natAbs := by injection h
    rw [h2] at hi2
    simp [parseDigits] at hi2
  · rw [if_neg hin, if_neg hjn] at h
    have h2 : Nat.toDigits 10 i.toNat = Nat.toDigits 10 j.toNat := by injection h
    rw [h2, hj2] at hi2
    injection hi2 with hi2
    omega

/-! ## The store after a sequence of `Add` calls -/

theorem Add_data (ns : NotificationStore) (k : String) (n : Notification) (u : String) :
    (ns.Add k n).data u = if u = k then some (UserNotifications.at ns.data k ++ [n]) else ns.data u := by
  unfold NotificationStore.Add
  cases h : ns.data k <;> by_cases hu : u = k <;>
    simp [UserNotifications.set, UserNotifications.at, h, hu]

theorem addAll_data (calls : List (String × Notification)) :
    ∀ (ns : NotificationStore) (u : String),
      (ns.addAll calls).data u =
        if (calls.filter (fun c => c.1 = u)) = [] then ns.data u
        else some (UserNotifications.at ns.data u ++ (calls.filter (fun c => c.1 = u)).map Prod.snd) := by
  induction calls with
  | nil => intro ns u; simp [NotificationStore.addAll]
  | cons c cs ih =>
    intro ns u
    have hstep : ns.addAll (c :: cs) = (ns.Add c.1 c.2).addAll cs := rfl
    rw [hstep, ih]
    by_cases hc : c.1 = u
    · subst hc
      by_cases hcs : cs.filter (fun d => d.1 = c.1) = [] <;>
        simp [List.filter_cons, hcs, UserNotifications.at, Add_data]
    · have hc2 : ¬ u = c.1 := fun h => hc h.symm
      have hf : (c :: cs).filter (fun d => d.1 = u) = cs.filter (fun d => d.1 = u) := by
        simp [List.filter_cons, hc]
      rw [hf]
      simp [hc2, UserNotifications.at, Add_data]

/-! ## The store: `Add` and `Get` -/

theorem filter_ne_nil_of_mem (calls : List (String × Notification)) (u : String)
    (hu : ∃ c ∈ calls, c.1 = u) : calls.filter (fun c => c.1 = u) ≠ [] := by
  obtain ⟨c, hc, hcu⟩ := hu
  intro h
  have hmem : c ∈ calls.filter (fun c => c.1 = u) := by
    simp [List.mem_filter, hc, hcu]
  rw [h] at hmem
  exact List.not_mem_nil _ hmem

/-- C1: after any sequence of `Add` calls on the empty store, `Get u` for a user id `u` that
occurs in the sequence succeeds and returns exactly the notifications added under `u`, in the
order of the calls, whatever calls for other ids lie between them. -/
theorem Get_returns_added_in_order (calls : List (String × Notification)) (u : String)
    (hu : ∃ c ∈ calls, c.1 = u) :
    (NotificationStore.empty.addAll calls).Get u
      = ((calls.filter (fun c => c.1 = u)).map Prod.snd, none) := by
  have hne := filter_ne_nil_of_mem calls u hu
  unfold NotificationStore.Get
  rw [addAll_data, if_neg hne]
  simp [NotificationStore.empty, UserNotifications.at]

theorem Get_returns_added_in_order_witness :
    (∃ c ∈ demoCalls, c.1 = "2") ∧
    (NotificationStore.empty.addAll demoCalls).Get "2"
      = ([⟨emma, bruno, "hi"⟩, ⟨rick, bruno, "yo"⟩], none) :=
  ⟨by decide, Get_returns_added_in_order demoCalls "2" (by decide)⟩

/-- C2: after any sequence of `Add` calls on the empty store, `Get u` fails with
`ErrNoMessagesFound` exactly when no call had user id `u`; the key `u` exists exactly when a
call had it; and a `Get` that succeeds returns a non-empty list. -/
theorem Get_fails_iff_never_added (calls : List (String × Notification)) (u : String) :
    (((NotificationStore.empty.addAll calls).Get u).2 = some GoError.ErrNoMessagesFound
        ↔ ∀ c ∈ calls, c.1 ≠ u) ∧
    ((NotificationStore.empty.addAll calls).data u ≠ none ↔ ∃ c ∈ calls, c.1 = u) ∧
    (((NotificationStore.empty.addAll calls).Get u).2 = none →
        ((NotificationStore.empty.addAll calls).Get u).1 ≠ []) := by
  have hfilter : calls.filter (fun c => c.1 = u) = [] ↔ ∀ c ∈ calls, c.1 ≠ u := by
    simp [List.filter_eq_nil_iff]
  by_cases hnone : ∀ c ∈ calls, c.1 ≠ u
  · have hdata : (NotificationStore.empty.addAll calls).data u = none := by
      rw [addAll_data, if_pos (hfilter.2 hnone)]; rfl
    have hex : ¬ ∃ c ∈ calls, c.1 = u := fun ⟨c, hc, hcu⟩ => hnone c hc hcu
    have hget : (NotificationStore.empty.addAll calls).Get u
        = ([], some GoError.ErrNoMessagesFound) := by
      unfold NotificationStore.Get; rw [hdata]
    refine ⟨?_, ?_, ?_⟩
    · rw [hget]; exact ⟨fun _ => hnone, fun _ => rfl⟩
    · rw [hdata]; exact ⟨fun h => absurd rfl h, fun h => absurd h hex⟩
    · rw [hget]; intro h; cases h
  · have hne : calls.filter (fun c => c.1 = u) ≠ [] := fun h => hnone (hfilter.1 h)
    have hex : ∃ c ∈ calls, c.1 = u := by
      by_contra hcon
      exact hnone (fun c hc hcu => hcon ⟨c, hc, hcu⟩)
    have hdata : (NotificationStore.empty.addAll calls).data u
        = some ((calls.filter (fun c => c.1 = u)).map Prod.snd) := by
      rw [addAll_data, if_neg hne]
      simp [NotificationStore.empty, UserNotifications.at]
    have hget : (NotificationStore.empty.addAll calls).Get u
        = ((calls.filter (fun c => c.1 = u)).map Prod.snd, none) := by
      unfold NotificationStore.Get; rw [hdata]
    refine ⟨?_, ?_, ?_⟩
    · rw [hget]; exact ⟨fun h => (by cases h), fun h => absurd h hnone⟩
    · rw [hdata]; exact ⟨fun _ => hex, fun _ h => (by cases h)⟩
    · intro _
      rw [hget]
      intro hmap
      exact hne (List.map_eq_nil_iff.1 hmap)

/-! ## The query handler -/

/-- C3: for every store and every non-empty user id with nothing recorded (the key is
missing, or holds an empty list), `handleNotifications` makes exactly one `ctx.JSON` call:
status 200, the message "No notifications found" and an empty notifications list. -/
theorem handleNotifications_nothing_recorded (ctx : Context) (store : NotificationStore)
    (hid : ctx.Param "userId" ≠ "")
    (hnone : store.data (ctx.Param "userId") = none ∨ store.data (ctx.Param "userId") = some []) :
    handleNotifications ctx store
      = [⟨200, [("message", .text "No notifications found"),
               ("notifications", .notifications [])]⟩] := by
  unfold handleNotifications getUserIdFromRequest
  simp only [hid, if_false]
  rcases hnone with h | h <;> simp [NotificationStore.Get, h]

theorem handleNotifications_nothing_recorded_witness :
    ((queryRequest "7").Param "userId" ≠ "" ∧
      ((NotificationStore.empty.addAll demoCalls).data ((queryRequest "7").Param "userId") = none ∨
       (NotificationStore.empty.addAll demoCalls).data ((queryRequest "7").Param "userId") = some []))
    ∧ handleNotifications (queryRequest "7") (NotificationStore.empty.addAll demoCalls)
      = [⟨200, [("message", .text "No notifications found"),
               ("notifications", .notifications [])]⟩] :=
  ⟨⟨by decide, by decide⟩,
    handleNotifications_nothing_recorded (queryRequest "7")
      (NotificationStore.empty.addAll demoCalls) (by decide) (by decide)⟩

/-! ## The producer -/

theorem findUserById_absent (id : Int) (users : List User) (h : ∀ u ∈ users, u.ID ≠ id) :
    findUserById id users = (⟨0, ""⟩, some GoError.ErrUserNotFoundInProducer) := by
  induction users with
  | nil => rfl
  | cons a as ih =>
    have ha : a.ID ≠ id := h a (List.mem_cons_self _ _)
    have hrest : ∀ u ∈ as, u.ID ≠ id := fun u hu => h u (List.mem_cons_of_mem _ hu)
    simp [findUserById, ha, ih hrest]

theorem findUserById_present (id : Int) (users : List User) (h : ∃ u ∈ users, u.ID = id) :
    ∃ u, findUserById id users = (u, none) ∧ u.ID = id ∧ u ∈ users := by
  induction users with
  | nil => obtain ⟨u, hu, _⟩ := h; cases hu
  | cons a as ih =>
    by_cases ha : a.ID = id
    · exact ⟨a, by simp [findUserById, ha], ha, List.mem_cons_self _ _⟩
    · have hrest : ∃ u ∈ as, u.ID = id := by
        obtain ⟨u, hu, hid⟩ := h
        rcases List.mem_cons.1 hu with rfl | hu
        · exact absurd hid ha
        · exact ⟨u, hu, hid⟩
      obtain ⟨u, hfind, hid, hmem⟩ := ih hrest
      exact ⟨u, by simp [findUserById, ha, hfind], hid, List.mem_cons_of_mem _ hmem⟩

theorem findUserById_result (id : Int) (users : List User) :
    (∃ u, findUserById id users = (u, none)) ∨
      findUserById id users = (⟨0, ""⟩, some GoError.ErrUserNotFoundInProducer) := by
  by_cases h : ∃ u ∈ users, u.ID = id
  · obtain ⟨u, hu, _⟩ := findUserById_present id users h
    exact Or.inl ⟨u, hu⟩
  · exact Or.inr (findUserById_absent id users (fun u hu hid => h ⟨u, hu, hid⟩))

theorem sendKafkaMessage_resolved (json : JsonCodec) (producter : SyncProducer)
    (users : List User) (ctx : Context) (fromId toId : Int)
    (hfrom : ∃ u ∈ users, u.ID = fromId) (hto : ∃ u ∈ users, u.ID = toId) (payload : String)
    (hm : json.Marshal ⟨(findUserById fromId users).1, (findUserById toId users).1,
      ctx.PostForm "message"⟩ = .ok payload) :
    sendKafkaMessage json producter users ctx fromId toId
      = (producter ⟨kafkaTopic, Itoa toId, payload⟩, [⟨kafkaTopic, Itoa toId, payload⟩]) := by
  obtain ⟨f, hf, _, _⟩ := findUserById_present fromId users hfrom
  obtain ⟨t, ht, htid, _⟩ := findUserById_present toId users hto
  rw [hf, ht] at hm
  simp only at hm
  unfold sendKafkaMessage
  simp only [hf, ht, hm, htid]

theorem sendKafkaMessage_of_absent (json : JsonCodec) (producter : SyncProducer)
    (users : List User) (ctx : Context) (fromId toId : Int)
    (h : (∀ u ∈ users, u.ID ≠ fromId) ∨ (∀ u ∈ users, u.ID ≠ toId)) :
    sendKafkaMessage json producter users ctx fromId toId
      = (some GoError.ErrUserNotFoundInProducer, []) := by
  unfold sendKafkaMessage
  rcases findUserById_result fromId users with ⟨f, hf⟩ | hf
  · rcases h with h | h
    · rw [findUserById_absent fromId users h] at hf
      cases hf
    · simp only [hf, findUserById_absent toId users h]
  · simp only [hf]

/-- C4: if `fromId` or `toId` is the id of no user of the directory, `sendKafkaMessage`
returns `ErrUserNotFoundInProducer` and passes no message to the producer. -/
theorem sendKafkaMessage_unknown_user (json : JsonCodec) (producter : SyncProducer)
    (users : List User) (ctx : Context) (fromId toId : Int)
    (h : (∀ u ∈ users, u.ID ≠ fromId) ∨ (∀ u ∈ users, u.ID ≠ toId)) :
    sendKafkaMessage json producter users ctx fromId toId
      = (some GoError.ErrUserNotFoundInProducer, []) :=
  sendKafkaMessage_of_absent json producter users ctx fromId toId h

theorem sendKafkaMessage_unknown_user_witness :
    ((∀ u ∈ mainUsers, u.ID ≠ 9) ∨ (∀ u ∈ mainUsers, u.ID ≠ 2)) ∧
    sendKafkaMessage referenceJson acceptingProducer mainUsers unknownUserRequest 9 2
      = (some GoError.ErrUserNotFoundInProducer, []) :=
  ⟨by decide,
    sendKafkaMessage_unknown_user referenceJson acceptingProducer mainUsers unknownUserRequest 9 2
      (by decide)⟩

/-- C5: when `fromId` and `toId` both resolve and the envelope serializes, `sendKafkaMessage`
passes exactly one message to the producer; its key is `Itoa toId` (and differs from
`Itoa fromId` unless the two ids are equal), its value is the serialized envelope
`{from, to, message}`, and its key is the string form of that envelope's `To.ID`. -/
theorem sendKafkaMessage_key_is_recipient (json : JsonCodec) (producter : SyncProducer)
    (users : List User) (ctx : Context) (fromId toId : Int)
    (hfrom : ∃ u ∈ users, u.ID = fromId) (hto : ∃ u ∈ users, u.ID = toId) (payload : String)
    (hm : json.Marshal ⟨(findUserById fromId users).1, (findUserById toId users).1,
      ctx.PostForm "message"⟩ = .ok payload) :
    ∃ msg envelope,
      (sendKafkaMessage json producter users ctx fromId toId).2 = [msg] ∧
      msg.Key = Itoa toId ∧ (fromId ≠ toId → msg.Key ≠ Itoa fromId) ∧
      envelope = ⟨(findUserById fromId users).1, (findUserById toId users).1,
        ctx.PostForm "message"⟩ ∧
      json.Marshal envelope = .ok msg.Value ∧ msg.Key = Itoa envelope.To.ID := by
  obtain ⟨t, ht, htid, _⟩ := findUserById_present toId users hto
  refine ⟨⟨kafkaTopic, Itoa toId, payload⟩, _, ?_, rfl, ?_, rfl, hm, ?_⟩
  · rw [sendKafkaMessage_resolved json producter users ctx fromId toId hfrom hto payload hm]
  · intro hne heq
    exact hne (Itoa_injective heq).symm
  · simp only [ht, htid]

theorem sendKafkaMessage_key_is_recipient_witness :
    ((∃ u ∈ mainUsers, u.ID = 1) ∧ (∃ u ∈ mainUsers, u.ID = 2) ∧
      referenceJson.Marshal ⟨(findUserById 1 mainUsers).1, (findUserById 2 mainUsers).1,
        (sendRequest "1" "2" "hi").PostForm "message"⟩ = .ok hiPayload) ∧
    ∃ msg envelope,
      (sendKafkaMessage referenceJson acceptingProducer mainUsers (sendRequest "1" "2" "hi")
        1 2).2 = [msg] ∧
      msg.Key = Itoa 2 ∧ ((1 : Int) ≠ 2 → msg.Key ≠ Itoa 1) ∧
      envelope = ⟨(findUserById 1 mainUsers).1, (findUserById 2 mainUsers).1,
        (sendRequest "1" "2" "hi").PostForm "message"⟩ ∧
      referenceJson.Marshal envelope = .ok msg.Value ∧ msg.Key = Itoa envelope.To.ID :=
  ⟨⟨by decide, by decide, by decide⟩,
    sendKafkaMessage_key_is_recipient referenceJson acceptingProducer mainUsers
      (sendRequest "1" "2" "hi") 1 2 (by decide) (by decide) hiPayload (by decide)⟩

theorem SendMessageHandler_unknown_user_general (json : JsonCodec) (producer : SyncProducer)
    (users : List User) (ctx : Context) (fromId toId : Int)
    (hfrom : getIdFromRequest "fromId" ctx = (fromId, none))
    (hto : getIdFromRequest "toId" ctx = (toId, none))
    (h : (∀ u ∈ users, u.ID ≠ fromId) ∨ (∀ u ∈ users, u.ID ≠ toId)) :
    SendMessageHandler json producer users ctx
      = ([⟨404, [("message", .text "User not found")]⟩,
          ⟨500, [("error", .text "user not found in producer")]⟩], []) := by
  have hsend := sendKafkaMessage_of_absent json producer users ctx fromId toId h
  unfold SendMessageHandler
  simp only [hfrom, hto, hsend]
  decide

/-- C6 (the code at the failing input): for a request whose sender id 9 is not in the
directory, `SendMessageHandler` makes two `ctx.JSON` calls, the 404 "User not found" response
and then the 500 response carrying the error text; nothing is passed to the producer. -/
theorem SendMessageHandler_unknown_user_answers_twice :
    SendMessageHandler referenceJson acceptingProducer mainUsers unknownUserRequest
      = ([⟨404, [("message", .text "User not found")]⟩,
          ⟨500, [("error", .text "user not found in producer")]⟩], []) := by
  decide

/-! ## The claim processor -/

theorem loop_spec (json : JsonCodec) (claim : List ConsumerMessage) :
    ∀ (store : NotificationStore) (effects : List Effect),
      ConsumeClaim.loop json claim store effects
        = (store.addAll (claim.filterMap (decoded json)),
           effects ++ (claim.map (messageEffects json)).flatten) := by
  induction claim with
  | nil => intro store effects; simp [ConsumeClaim.loop, NotificationStore.addAll]
  | cons m rest ih =>
    intro store effects
    unfold ConsumeClaim.loop
    cases hm : json.Unmarshal m.Value with
    | error e =>
      simp only [ih]
      simp [decoded, messageEffects, hm, List.filterMap_cons]
    | ok n =>
      simp only [ih]
      simp [decoded, messageEffects, hm, List.filterMap_cons, NotificationStore.addAll]

theorem ConsumeClaim_store (json : JsonCodec) (store : NotificationStore)
    (claim : List ConsumerMessage) :
    (ConsumeClaim json store claim).store = store.addAll (claim.filterMap (decoded json)) := by
  simp [ConsumeClaim, loop_spec]

theorem ConsumeClaim_effects (json : JsonCodec) (store : NotificationStore)
    (claim : List ConsumerMessage) :
    (ConsumeClaim json store claim).effects = (claim.map (messageEffects json)).flatten := by
  simp [ConsumeClaim, loop_spec]

theorem addAll_append (store : NotificationStore) (xs ys : List (String × Notification)) :
    store.addAll (xs ++ ys) = (store.addAll xs).addAll ys := by
  simp [NotificationStore.addAll, List.foldl_append]

/-- C7: on every claim and every initial store, `ConsumeClaim` returns nil after handling
every message of the claim in order (a log line for a payload that does not decode, a store
write and a mark for one that does), and the store it leaves is the initial one with the
messages whose payload decodes applied in order (each under its message key); a message whose
payload does not decode, anywhere in the claim, changes nothing: the store is the same as for
the claim without it. -/
theorem ConsumeClaim_skips_undecodable (json : JsonCodec) (store : NotificationStore)
    (claim : List ConsumerMessage) :
    (ConsumeClaim json store claim).err = none ∧
    (ConsumeClaim json store claim).effects = (claim.map (messageEffects json)).flatten ∧
    (ConsumeClaim json store claim).store = store.addAll (claim.filterMap (decoded json)) ∧
    (∀ before m after, claim = before ++ m :: after → decodes json m = false →
      (ConsumeClaim json store claim).store = (ConsumeClaim json store (before ++ after)).store) := by
  refine ⟨rfl, ConsumeClaim_effects json store claim, ConsumeClaim_store json store claim, ?_⟩
  intro before m after hclaim hbad
  have hdec : decoded json m = none := by
    unfold decodes at hbad
    unfold decoded
    cases hm : json.Unmarshal m.Value with
    | error e => rfl
    | ok n => rw [hm] at hbad; cases hbad
  rw [ConsumeClaim_store, ConsumeClaim_store, hclaim]
  simp [List.filterMap_append, List.filterMap_cons, hdec]

theorem ConsumeClaim_skips_undecodable_witness :
    decodes referenceJson badMessage = false ∧
    (ConsumeClaim referenceJson NotificationStore.empty demoClaim).err = none ∧
    (ConsumeClaim referenceJson NotificationStore.empty demoClaim).store.Get "2"
      = ([⟨emma, bruno, "hi"⟩, ⟨rick, bruno, "yo"⟩], none) ∧
    (ConsumeClaim referenceJson NotificationStore.empty demoClaim).store
      = (ConsumeClaim referenceJson NotificationStore.empty ([hiMessage] ++ [yoMessage])).store :=
  ⟨by decide, by decide, by decide,
    (ConsumeClaim_skips_undecodable referenceJson NotificationStore.empty demoClaim).2.2.2
      [hiMessage] badMessage [yoMessage] rfl (by decide)⟩

theorem marks_flatten (json : JsonCodec) (claim : List ConsumerMessage) :
    ((claim.map (messageEffects json)).flatten).filterMap Effect.markOf
      = claim.filter (decodes json) := by
  induction claim with
  | nil => rfl
  | cons a rest ih =>
    simp only [List.map_cons, List.flatten_cons, List.filterMap_append, ih, List.filter_cons]
    cases ha : json.Unmarshal a.Value <;>
      simp [messageEffects, decodes, ha, List.filterMap_cons, Effect.markOf]

theorem mark_preceded_flatten (json : JsonCodec) (claim : List ConsumerMessage) :
    ∀ (before after : List Effect) (m : ConsumerMessage) (metadata : String),
      (claim.map (messageEffects json)).flatten = before ++ Effect.marked m metadata :: after →
      ∃ earlier notification, before = earlier ++ [Effect.added m.Key notification] ∧
        json.Unmarshal m.Value = .ok notification ∧ m ∈ claim ∧ metadata = "" := by
  induction claim with
  | nil =>
    intro before after m metadata h
    simp at h
  | cons a rest ih =>
    intro before after m metadata h
    simp only [List.map_cons, List.flatten_cons] at h
    cases ha : json.Unmarshal a.Value with
    | error e =>
      simp only [messageEffects, ha, List.singleton_append] at h
      cases before with
      | nil => simp at h
      | cons b before1 =>
        simp only [List.cons_append, List.cons.injEq] at h
        obtain ⟨earlier, n, he, hn, hmem, hmd⟩ := ih before1 after m metadata h.2
        exact ⟨b :: earlier, n, by simp [he], hn, List.mem_cons_of_mem _ hmem, hmd⟩
    | ok n =>
      simp only [messageEffects, ha, List.cons_append, List.nil_append] at h
      cases before with
      | nil => simp at h
      | cons b before1 =>
        cases before1 with
        | nil =>
          simp only [List.cons_append, List.nil_append, List.cons.injEq,
            Effect.marked.injEq] at h
          obtain ⟨hb, ⟨hma, hmd⟩, _⟩ := h
          subst hma
          exact ⟨[], n, by simp [hb], ha, List.mem_cons_self _ _, hmd.symm⟩
        | cons b2 before2 =>
          simp only [List.cons_append, List.cons.injEq] at h
          obtain ⟨earlier, n2, he, hn, hmem, hmd⟩ := ih before2 after m metadata h.2.2
          exact ⟨b :: b2 :: earlier, n2, by simp [he], hn, List.mem_cons_of_mem _ hmem, hmd⟩

theorem ConsumeClaim_store_snoc (json : JsonCodec) (store : NotificationStore)
    (pre : List ConsumerMessage) (m : ConsumerMessage) (e : Notification)
    (hm : json.Unmarshal m.Value = .ok e) :
    (ConsumeClaim json store (pre ++ [m])).store
      = (ConsumeClaim json store pre).store.Add m.Key e := by
  have hdec : decoded json m = some (m.Key, e) := by simp [decoded, hm]
  rw [ConsumeClaim_store, ConsumeClaim_store, List.filterMap_append, addAll_append]
  simp [List.filterMap_cons, hdec, NotificationStore.addAll]

theorem ConsumeClaim_effects_append (json : JsonCodec) (store : NotificationStore)
    (xs ys : List ConsumerMessage) :
    (ConsumeClaim json store (xs ++ ys)).effects
      = (ConsumeClaim json store xs).effects ++ (ys.map (messageEffects json)).flatten := by
  simp [ConsumeClaim_effects, List.map_append, List.flatten_append]

theorem Get_Add_same (ns : NotificationStore) (k : String) (e : Notification) :
    (ns.Add k e).Get k = ((ns.Get k).1 ++ [e], none) := by
  cases hk : ns.data k <;> simp [NotificationStore.Get, Add_data, hk, UserNotifications.at]

theorem mem_Get_addAll (calls : List (String × Notification)) (store : NotificationStore)
    (k : String) (e : Notification) (h : (k, e) ∈ calls) :
    e ∈ ((store.addAll calls).Get k).1 := by
  have hmem : (k, e) ∈ calls.filter (fun c => c.1 = k) := by
    simp [List.mem_filter, h]
  have hne : calls.filter (fun c => c.1 = k) ≠ [] := by
    intro hnil
    rw [hnil] at hmem
    exact List.not_mem_nil _ hmem
  unfold NotificationStore.Get
  rw [addAll_data, if_neg hne]
  simp only [List.mem_append]
  exact Or.inr (List.mem_map.2 ⟨(k, e), hmem, rfl⟩)

theorem decodes_eq_true (json : JsonCodec) (m : ConsumerMessage) (h : decodes json m = true) :
    ∃ e, json.Unmarshal m.Value = .ok e := by
  unfold decodes at h
  cases hm : json.Unmarshal m.Value with
  | error err => rw [hm] at h; cases h
  | ok e => exact ⟨e, rfl⟩

/-- C8: `ConsumeClaim` marks a message only after its envelope has been applied to the store.
For every claim and initial store:
(1) in the effects, every `MarkMessage(m)` comes directly after the `Add` of the envelope
decoded from `m`;
(2) the marks, read in order, are the decodable messages of the claim in partition order, one
mark each;
(3) at every decodable message `m` of the claim, with `pre` the messages before it, the run up
to and including `m` ends with the `Add` for `m` followed by its mark, the store at that mark
is the store after `pre` with the envelope added under the message key (so `Get` of that key
ends with the envelope), and the rest of the run only appends effects;
(4) at a message whose payload does not decode the store is unchanged and nothing is marked;
(5) in the store `ConsumeClaim` leaves, `Get` of the key of every marked message contains the
envelope decoded from it. -/
theorem ConsumeClaim_marks_after_add (json : JsonCodec) (store : NotificationStore)
    (claim : List ConsumerMessage) :
    (∀ before after m metadata,
      (ConsumeClaim json store claim).effects = before ++ Effect.marked m metadata :: after →
      ∃ earlier e, before = earlier ++ [Effect.added m.Key e] ∧
        json.Unmarshal m.Value = .ok e ∧ m ∈ claim) ∧
    (ConsumeClaim json store claim).effects.filterMap Effect.markOf
      = claim.filter (decodes json) ∧
    (∀ pre m post e, claim = pre ++ m :: post → json.Unmarshal m.Value = .ok e →
      (ConsumeClaim json store (pre ++ [m])).effects
        = (ConsumeClaim json store pre).effects ++ [Effect.added m.Key e, Effect.marked m ""] ∧
      (ConsumeClaim json store (pre ++ [m])).store
        = (ConsumeClaim json store pre).store.Add m.Key e ∧
      (ConsumeClaim json store (pre ++ [m])).store.Get m.Key
        = (((ConsumeClaim json store pre).store.Get m.Key).1 ++ [e], none) ∧
      ∃ later, (ConsumeClaim json store claim).effects
        = (ConsumeClaim json store (pre ++ [m])).effects ++ later) ∧
    (∀ pre m post, claim = pre ++ m :: post → decodes json m = false →
      (ConsumeClaim json store (pre ++ [m])).store = (ConsumeClaim json store pre).store ∧
      (ConsumeClaim json store (pre ++ [m])).effects.filterMap Effect.markOf
        = (ConsumeClaim json store pre).effects.filterMap Effect.markOf) ∧
    (∀ m, m ∈ (ConsumeClaim json store claim).effects.filterMap Effect.markOf →
      ∃ e, json.Unmarshal m.Value = .ok e ∧
        e ∈ ((ConsumeClaim json store claim).store.Get m.Key).1) := by
  refine ⟨?_, ?_, ?_, ?_, ?_⟩
  · intro before after m metadata h
    rw [ConsumeClaim_effects] at h
    obtain ⟨earlier, e, he, hn, hmem, _⟩ :=
      mark_preceded_flatten json claim before after m metadata h
    exact ⟨earlier, e, he, hn, hmem⟩
  · rw [ConsumeClaim_effects]
    exact marks_flatten json claim
  · intro pre m post e hclaim hm
    have hstore := ConsumeClaim_store_snoc json store pre m e hm
    refine ⟨?_, hstore, ?_, ?_⟩
    · rw [ConsumeClaim_effects_append]
      simp [messageEffects, hm]
    · rw [hstore, Get_Add_same]
    · refine ⟨(post.map (messageEffects json)).flatten, ?_⟩
      have hsplit : claim = (pre ++ [m]) ++ post := by simp [hclaim]
      rw [hsplit, ConsumeClaim_effects_append]
  · intro pre m post _ hbad
    have hdec : decoded json m = none := by
      unfold decodes at hbad
      unfold decoded
      cases hm : json.Unmarshal m.Value with
      | error err => rfl
      | ok n => rw [hm] at hbad; cases hbad
    constructor
    · rw [ConsumeClaim_store, ConsumeClaim_store]
      simp [List.filterMap_append, List.filterMap_cons, hdec]
    · rw [ConsumeClaim_effects, ConsumeClaim_effects, marks_flatten, marks_flatten]
      simp [List.filter_append, List.filter_cons, hbad]
  · intro m hmark
    rw [ConsumeClaim_effects, marks_flatten] at hmark
    obtain ⟨hmem, hdecodes⟩ := List.mem_filter.1 hmark
    obtain ⟨e, he⟩ := decodes_eq_true json m hdecodes
    refine ⟨e, he, ?_⟩
    rw [ConsumeClaim_store]
    apply mem_Get_addAll
    exact List.mem_filterMap.2 ⟨m, hmem, by simp [decoded, he]⟩

theorem ConsumeClaim_marks_after_add_witness :
    (ConsumeClaim referenceJson NotificationStore.empty demoClaim).effects.filterMap
        Effect.markOf = [hiMessage, yoMessage] ∧
    ((ConsumeClaim referenceJson NotificationStore.empty ([hiMessage, badMessage] ++ [yoMessage])).effects
        = (ConsumeClaim referenceJson NotificationStore.empty [hiMessage, badMessage]).effects
          ++ [Effect.added yoMessage.Key ⟨rick, bruno, "yo"⟩, Effect.marked yoMessage ""] ∧
      (ConsumeClaim referenceJson NotificationStore.empty ([hiMessage, badMessage] ++ [yoMessage])).store
        = (ConsumeClaim referenceJson NotificationStore.empty [hiMessage, badMessage]).store.Add
            yoMessage.Key ⟨rick, bruno, "yo"⟩ ∧
      (ConsumeClaim referenceJson NotificationStore.empty ([hiMessage, badMessage] ++ [yoMessage])).store.Get
          yoMessage.Key
        = (((ConsumeClaim referenceJson NotificationStore.empty [hiMessage, badMessage]).store.Get
            yoMessage.Key).1 ++ [⟨rick, bruno, "yo"⟩], none) ∧
      ∃ later, (ConsumeClaim referenceJson NotificationStore.empty demoClaim).effects
        = (ConsumeClaim referenceJson NotificationStore.empty
            ([hiMessage, badMessage] ++ [yoMessage])).effects ++ later) ∧
    (ConsumeClaim referenceJson NotificationStore.empty ([hiMessage] ++ [badMessage])).store.Get "2"
      = ([⟨emma, bruno, "hi"⟩], none) ∧
    ∃ e, referenceJson.Unmarshal yoMessage.Value = .ok e ∧
      e ∈ ((ConsumeClaim referenceJson NotificationStore.empty demoClaim).store.Get
        yoMessage.Key).1 :=
  have h := ConsumeClaim_marks_after_add referenceJson NotificationStore.empty demoClaim
  ⟨h.2.1.trans (by decide),
    h.2.2.1 [hiMessage, badMessage] yoMessage [] ⟨rick, bruno, "yo"⟩ rfl (by decide),
    (congrArg (fun s => NotificationStore.Get s "2")
      (h.2.2.2.1 [hiMessage] badMessage [yoMessage] rfl (by decide)).1).trans (by decide),
    h.2.2.2.2 yoMessage (by decide)⟩

/-- C10 as stated fails: a message with key "9" whose payload is an envelope to Bruno (id 2)
is recorded under "9", and nothing is recorded under "2". -/
theorem ConsumeClaim_files_under_key_not_recipient :
    referenceJson.Unmarshal strayMessage.Value = .ok ⟨emma, bruno, "hi"⟩ ∧
    (ConsumeClaim referenceJson NotificationStore.empty [strayMessage]).store.Get (Itoa bruno.ID)
      = ([], some GoError.ErrNoMessagesFound) ∧
    (ConsumeClaim referenceJson NotificationStore.empty [strayMessage]).store.Get "9"
      = ([⟨emma, bruno, "hi"⟩], none) := by
  decide

/-- C10 amended: a message whose payload decodes to an envelope `e` is recorded under the
message key, whatever `e.To.ID` is: after the message, `Get` of the key returns what it
returned before followed by `e`, and `Get` of every other user id is unchanged. -/
theorem ConsumeClaim_records_under_message_key (json : JsonCodec) (store : NotificationStore)
    (before : List ConsumerMessage) (m : ConsumerMessage) (e : Notification)
    (hm : json.Unmarshal m.Value = .ok e) :
    (ConsumeClaim json store (before ++ [m])).store.Get m.Key
      = (((ConsumeClaim json store before).store.Get m.Key).1 ++ [e], none) ∧
    ∀ k, k ≠ m.Key →
      (ConsumeClaim json store (before ++ [m])).store.Get k
        = (ConsumeClaim json store before).store.Get k := by
  have hdec : decoded json m = some (m.Key, e) := by simp [decoded, hm]
  have hstore : (ConsumeClaim json store (before ++ [m])).store
      = (ConsumeClaim json store before).store.Add m.Key e := by
    rw [ConsumeClaim_store, ConsumeClaim_store, List.filterMap_append, addAll_append]
    simp [List.filterMap_cons, hdec, NotificationStore.addAll]
  rw [hstore]
  constructor
  · cases hk : (ConsumeClaim json store before).store.data m.Key <;>
      simp [NotificationStore.Get, Add_data, hk, UserNotifications.at]
  · intro k hk
    unfold NotificationStore.Get
    rw [Add_data, if_neg hk]

theorem ConsumeClaim_records_under_message_key_witness :
    referenceJson.Unmarshal strayMessage.Value = .ok ⟨emma, bruno, "hi"⟩ ∧
    ((ConsumeClaim referenceJson NotificationStore.empty ([hiMessage] ++ [strayMessage])).store.Get
        strayMessage.Key
      = (((ConsumeClaim referenceJson NotificationStore.empty [hiMessage]).store.Get
          strayMessage.Key).1 ++ [⟨emma, bruno, "hi"⟩], none) ∧
    ∀ k, k ≠ strayMessage.Key →
      (ConsumeClaim referenceJson NotificationStore.empty ([hiMessage] ++ [strayMessage])).store.Get k
        = (ConsumeClaim referenceJson NotificationStore.empty [hiMessage]).store.Get k) :=
  ⟨by decide,
    ConsumeClaim_records_under_message_key referenceJson NotificationStore.empty [hiMessage]
      strayMessage ⟨emma, bruno, "hi"⟩ (by decide)⟩

/-! ## End to end -/

theorem decoded_logDeliverFrom (json : JsonCodec) (published : List ProducerMessage) :
    ∀ offset : Int, (logDeliverFrom offset published).filterMap (decoded json)
      = published.filterMap (fun p => decoded json ⟨p.Key, p.Value, p.Topic, 0, 0⟩) := by
  induction published with
  | nil => intro offset; rfl
  | cons p ps ih =>
    intro offset
    simp only [logDeliverFrom, List.filterMap_cons, ih (offset + 1)]
    rfl

theorem decoded_publishAll (json : JsonCodec) (producter : SyncProducer) (users : List User)
    (sends : List Send)
    (hres : ∀ s ∈ sends, (∃ u ∈ users, u.ID = s.fromId) ∧ (∃ u ∈ users, u.ID = s.toId))
    (hjson : ∀ s ∈ sends, ∃ payload, json.Marshal (s.envelope users) = .ok payload ∧
      json.Unmarshal payload = .ok (s.envelope users)) :
    (logDeliver (publishAll json producter users sends)).filterMap (decoded json)
      = sends.map (fun s => (Itoa s.toId, s.envelope users)) := by
  rw [logDeliver, decoded_logDeliverFrom]
  induction sends with
  | nil => rfl
  | cons s rest ih =>
    have hs := hres s (List.mem_cons_self _ _)
    obtain ⟨payload, hmar, hunmar⟩ := hjson s (List.mem_cons_self _ _)
    have hsent := sendKafkaMessage_resolved json producter users s.ctx s.fromId s.toId
      hs.1 hs.2 payload hmar
    have ih2 := ih (fun t ht => hres t (List.mem_cons_of_mem _ ht))
      (fun t ht => hjson t (List.mem_cons_of_mem _ ht))
    simp only [publishAll, List.map_cons, List.flatten_cons, hsent, List.filterMap_append]
    simp only [publishAll] at ih2
    rw [ih2]
    simp [List.filterMap_cons, decoded, hunmar]

theorem Get_after_sends (json : JsonCodec) (producter : SyncProducer) (users : List User)
    (sends : List Send)
    (hres : ∀ s ∈ sends, (∃ u ∈ users, u.ID = s.fromId) ∧ (∃ u ∈ users, u.ID = s.toId))
    (hjson : ∀ s ∈ sends, ∃ payload, json.Marshal (s.envelope users) = .ok payload ∧
      json.Unmarshal payload = .ok (s.envelope users))
    (r : Int) :
    (ConsumeClaim json NotificationStore.empty
        (logDeliver (publishAll json producter users sends))).store.data (Itoa r)
      = if (sends.filter (fun s => s.toId = r)).isEmpty then none
        else some ((sends.filter (fun s => s.toId = r)).map (Send.envelope users)) := by
  rw [ConsumeClaim_store, decoded_publishAll json producter users sends hres hjson, addAll_data]
  have hfilter : (sends.map (fun s => (Itoa s.toId, s.envelope users))).filter
        (fun c => c.1 = Itoa r)
      = (sends.filter (fun s => s.toId = r)).map (fun s => (Itoa s.toId, s.envelope users)) := by
    rw [List.filter_map]
    congr 1
    apply List.filter_congr
    intro s _
    simp [Itoa_injective.eq_iff]
  rw [hfilter]
  by_cases hnil : sends.filter (fun s => s.toId = r) = []
  · simp [hnil, NotificationStore.empty]
  · simp [hnil, NotificationStore.empty, UserNotifications.at, Function.comp_def]

/-- C9: for every directory and every sequence of sends whose ids all resolve and whose
envelopes survive encoding and decoding, delivering the messages `sendKafkaMessage` passed to
the producer, in publish order, to `ConsumeClaim` on the empty store makes `Get (Itoa r)`
return, for every recipient id `r`, the envelopes of the sends addressed to `r` in send order,
without error as soon as one send was addressed to `r`. -/
theorem end_to_end_per_recipient_order (json : JsonCodec) (producter : SyncProducer)
    (users : List User) (sends : List Send)
    (hres : ∀ s ∈ sends, (∃ u ∈ users, u.ID = s.fromId) ∧ (∃ u ∈ users, u.ID = s.toId))
    (hjson : ∀ s ∈ sends, ∃ payload, json.Marshal (s.envelope users) = .ok payload ∧
      json.Unmarshal payload = .ok (s.envelope users))
    (r : Int) :
    ((ConsumeClaim json NotificationStore.empty
        (logDeliver (publishAll json producter users sends))).store.Get (Itoa r)).1
      = (sends.filter (fun s => s.toId = r)).map (Send.envelope users) ∧
    ((∃ s ∈ sends, s.toId = r) →
      ((ConsumeClaim json NotificationStore.empty
        (logDeliver (publishAll json producter users sends))).store.Get (Itoa r)).2 = none) := by
  have hdata := Get_after_sends json producter users sends hres hjson r
  unfold NotificationStore.Get
  rw [hdata]
  by_cases hnil : sends.filter (fun s => s.toId = r) = []
  · refine ⟨by simp [hnil], ?_⟩
    rintro ⟨s, hs, hsr⟩
    exfalso
    have : s ∈ sends.filter (fun s => s.toId = r) := by simp [List.mem_filter, hs, hsr]
    rw [hnil] at this
    cases this
  · simp [hnil]

theorem end_to_end_per_recipient_order_witness :
    ((∀ s ∈ demoSends, (∃ u ∈ mainUsers, u.ID = s.fromId) ∧ (∃ u ∈ mainUsers, u.ID = s.toId)) ∧
     (∀ s ∈ demoSends, ∃ payload, referenceJson.Marshal (s.envelope mainUsers) = .ok payload ∧
        referenceJson.Unmarshal payload = .ok (s.envelope mainUsers))) ∧
    ((ConsumeClaim referenceJson NotificationStore.empty
        (logDeliver (publishAll referenceJson acceptingProducer mainUsers demoSends))).store.Get
          "2").1
      = [⟨emma, bruno, "hi"⟩, ⟨rick, bruno, "yo"⟩] ∧
    ((ConsumeClaim referenceJson NotificationStore.empty
        (logDeliver (publishAll referenceJson acceptingProducer mainUsers demoSends))).store.Get
          "2").2 = none :=
  have hres : ∀ s ∈ demoSends,
      (∃ u ∈ mainUsers, u.ID = s.fromId) ∧ (∃ u ∈ mainUsers, u.ID = s.toId) := by decide
  have hjson : ∀ s ∈ demoSends, ∃ payload,
      referenceJson.Marshal (s.envelope mainUsers) = .ok payload ∧
        referenceJson.Unmarshal payload = .ok (s.envelope mainUsers) := by
    intro s hs
    simp only [demoSends, List.mem_cons, List.mem_singleton, List.not_mem_nil, or_false] at hs
    rcases hs with rfl | rfl
    · exact ⟨hiPayload, by decide, by decide⟩
    · exact ⟨yoPayload, by decide, by decide⟩
  have h := end_to_end_per_recipient_order referenceJson acceptingProducer mainUsers demoSends
    hres hjson 2
  ⟨⟨hres, hjson⟩, h.1, h.2 ⟨⟨sendRequest "1" "2" "hi", 1, 2⟩, by simp [demoSends], rfl⟩⟩

end Notifly
